import Mathlib

/-!
Verification of the GPX track-comparison engine (`scripts/compare_gpx.py`).

Shallow embedding conventions:
* Python floats that enter the engine (coordinates, epoch seconds, distances
  fed to the summarizer) are modelled as exact rationals `ℚ`; the results of
  the trigonometric distance computation are modelled as real numbers `ℝ`
  (the standard exact-real abstraction of IEEE floats; "up to floating-point
  rounding" statements become exact equalities).
* The `float('nan')` sentinel returned by the summarizer/percentile on empty
  input is modelled as `Option.none`.
* Python exceptions are modelled with `Except`: `parse_gpx` receives either
  the record list of a readable file or the error raised while reading it.
* `bisect.bisect_left` on a sorted list returns the leftmost insertion
  position, i.e. the first index whose element is ≥ the probe; it is
  modelled by that characterisation (`List.findIdx?`).  The matcher only
  ever applies it to sorted lists, where the two agree.
* Python's built-in `min(candidates, key=...)` keeps the first element on
  ties and replaces the running best only on a strictly smaller key; it is
  modelled by a left fold with a strict comparison (`minByAbs`).
* The `best = float('inf') / best_point = None` initial accumulator of the
  spatial scan is modelled as `Option.none`: every computed distance is a
  real number, hence strictly below `inf`, so the first test point is always
  taken, exactly as in the Python loop.
-/

namespace CompareGpx

/-- Earth radius in meters, `R_EARTH_M` in `compare_gpx.py`. -/
def R_EARTH_M : ℝ := 6371000

/-- A parsed track point (`TrackPoint` dataclass).  The dataclass invariant
ties `timestamp` and `seconds` together (`seconds = timestamp.timestamp() if
timestamp else None`), so the embedding keeps only the derived epoch-seconds
field next to the coordinates. -/
structure TrackPoint where
  seconds : Option ℚ
  lat : ℚ
  lon : ℚ
deriving DecidableEq

/-- `math.radians`. -/
noncomputable def radians (x : ℝ) : ℝ := x * Real.pi / 180

/-- The haversine intermediate `a` computed in `haversine_m`:
`sin(dlat/2)**2 + cos(lat1_r)*cos(lat2_r)*sin(dlon/2)**2`. -/
noncomputable def haversine_a (lat1 lon1 lat2 lon2 : ℝ) : ℝ :=
  let lat1_r := radians lat1
  let lon1_r := radians lon1
  let lat2_r := radians lat2
  let lon2_r := radians lon2
  let dlat := lat2_r - lat1_r
  let dlon := lon2_r - lon1_r
  Real.sin (dlat / 2) ^ 2 + Real.cos lat1_r * Real.cos lat2_r * Real.sin (dlon / 2) ^ 2

/-- The clamped argument `min(1.0, math.sqrt(a))` handed to `math.asin` in
`haversine_m`. -/
noncomputable def asinArg (lat1 lon1 lat2 lon2 : ℝ) : ℝ :=
  min 1 (Real.sqrt (haversine_a lat1 lon1 lat2 lon2))

/-- `haversine_m`: great-circle distance in meters,
`R_EARTH_M * 2 * math.asin(min(1.0, math.sqrt(a)))`. -/
noncomputable def haversine_m (lat1 lon1 lat2 lon2 : ℝ) : ℝ :=
  R_EARTH_M * 2 * Real.arcsin (asinArg lat1 lon1 lat2 lon2)

/-! ### Track parser (`parse_gpx`) -/

/-- The `lat`/`lon` attribute of a `trkpt` element as the parser sees it:
missing, present but rejected by `float(...)`, or a numeric value. -/
inductive Attr where
  | absent
  | nonNumeric
  | numeric (v : ℚ)
deriving DecidableEq

/-- The first `time` child of a `trkpt`: either text that `_parse_time`
rejects (returning `None`), or a successfully parsed UTC instant, recorded
by its epoch seconds. -/
inductive RawTime where
  | unparseable
  | parsed (secs : ℚ)
deriving DecidableEq

/-- One `trkpt` element of the document: its two coordinate attributes and
its first `time` child, if any. -/
structure RawTrkpt where
  lat : Attr
  lon : Attr
  time : Option RawTime
deriving DecidableEq

/-- The per-record step of `parse_gpx`'s loop: records with a missing or
non-numeric coordinate are skipped (`continue`); an absent or unparseable
timestamp leaves the time fields `None` but keeps the point. -/
def trkptPoint (r : RawTrkpt) : Option TrackPoint :=
  match r.lat, r.lon with
  | Attr.numeric la, Attr.numeric lo =>
      let secs : Option ℚ :=
        match r.time with
        | some (RawTime.parsed s) => some s
        | _ => none
      some ⟨secs, la, lo⟩
  | _, _ => none

/-- `parse_gpx`: `ET.parse(path)` either raises (file unreadable or not
well-formed markup), which propagates, or yields the document's `trkpt`
records, which are filtered through the per-record step.  There is no
further failure: the resulting list is returned as is, even when empty. -/
def parse_gpx (input : Except String (List RawTrkpt)) : Except String (List TrackPoint) :=
  match input with
  | Except.error e => Except.error e
  | Except.ok recs => Except.ok (recs.filterMap trkptPoint)

/-! ### Time-windowed matcher (`match_by_time`) -/

/-- `bisect.bisect_left(l, x)` on a sorted list: the first index whose
element is ≥ `x`, or `l.length` when every element is < `x`. -/
def bisect_left (l : List ℚ) (x : ℚ) : ℕ :=
  (l.findIdx? (fun y => x ≤ y)).getD l.length

/-- Pairs every point that carries usable epoch-seconds with that value:
the `[p for p in track if p.seconds is not None]` filter, keeping the
witnessing seconds alongside the point. -/
def timedPoints (l : List TrackPoint) : List (ℚ × TrackPoint) :=
  l.filterMap (fun p => p.seconds.map (fun s => (s, p)))

/-- `list.sort(key=lambda p: p.seconds)`: stable sort by epoch-seconds. -/
def sortByTime (l : List (ℚ × TrackPoint)) : List (ℚ × TrackPoint) :=
  l.mergeSort (fun a b => a.1 ≤ b.1)

/-- The candidate list built for one baseline point: the test point at the
insertion position (if any), then the test point immediately before it
(if any) — in exactly that order. -/
def timeCandidates (test_t : List (ℚ × TrackPoint)) (sec : ℚ) : List (ℚ × TrackPoint) :=
  let idx := bisect_left (test_t.map Prod.fst) sec
  (test_t.get? idx).toList ++ (if 0 < idx then (test_t.get? (idx - 1)).toList else [])

/-- Python's `min(candidates, key=lambda p: abs(p.seconds - sec))`: a left
fold that replaces the running best only on a strictly smaller key, hence
keeps the first element on ties; `none` on an empty list (the loop issues
`continue` there). -/
def minByAbs (sec : ℚ) : List (ℚ × TrackPoint) → Option (ℚ × TrackPoint)
  | [] => none
  | x :: xs => some (xs.foldl (fun b y => if |y.1 - sec| < |b.1 - sec| then y else b) x)

/-- The body of `match_by_time`'s loop for one baseline point `b`: pick the
nearest-in-time candidate, accept it only when its absolute time delta is
≤ ε, and attach the haversine distance. -/
noncomputable def timeMatchOne (test_t : List (ℚ × TrackPoint)) (epsilon : ℚ)
    (b : ℚ × TrackPoint) : Option (TrackPoint × TrackPoint × ℝ) :=
  match minByAbs b.1 (timeCandidates test_t b.1) with
  | none => none
  | some w =>
      if |w.1 - b.1| ≤ epsilon then
        some (b.2, w.2, haversine_m (b.2.lat : ℝ) (b.2.lon : ℝ) (w.2.lat : ℝ) (w.2.lon : ℝ))
      else none

/-- `match_by_time`: filter both tracks to time-usable points, return `[]`
if either filtered set is empty, sort both by epoch-seconds, and run the
per-point candidate search over the baseline. -/
noncomputable def match_by_time (base test : List TrackPoint) (epsilon : ℚ) :
    List (TrackPoint × TrackPoint × ℝ) :=
  let base_t := sortByTime (timedPoints base)
  let test_t := sortByTime (timedPoints test)
  if base_t.isEmpty || test_t.isEmpty then []
  else base_t.filterMap (timeMatchOne test_t epsilon)

/-! ### Nearest-spatial matcher (`match_by_spatial`) -/

/-- One step of the spatial scan: replace the running best only under a
strict `<`.  Python's initial `best = float('inf'), best_point = None`
state is the `none` accumulator: every real distance is `< inf`, so the
first candidate is always taken. -/
noncomputable def selectStep (best : Option (TrackPoint × ℝ)) (c : TrackPoint × ℝ) :
    Option (TrackPoint × ℝ) :=
  match best with
  | none => some c
  | some (p, bd) => if c.2 < bd then some c else some (p, bd)

/-- The whole inner scan of `match_by_spatial` over the pre-paired
(point, distance) list. -/
noncomputable def selectFirstMin (l : List (TrackPoint × ℝ)) : Option (TrackPoint × ℝ) :=
  l.foldl selectStep none

/-- The distance computed inline in `match_by_spatial`'s inner loop, with
the baseline point's radians and cosine precomputed and hoisted out. -/
noncomputable def spatialDist (lat1 lon1 cos_lat1 lat2 lon2 : ℝ) : ℝ :=
  let dlat := lat2 - lat1
  let dlon := lon2 - lon1
  let a := Real.sin (dlat / 2) ^ 2 + cos_lat1 * Real.cos lat2 * Real.sin (dlon / 2) ^ 2
  R_EARTH_M * 2 * Real.arcsin (min 1 (Real.sqrt a))

/-- The scan of all (pre-radianised) test points for one baseline point. -/
noncomputable def spatialBest (b : TrackPoint) (test_rad : List (ℝ × ℝ × TrackPoint)) :
    Option (TrackPoint × ℝ) :=
  let lat1 := radians (b.lat : ℝ)
  let lon1 := radians (b.lon : ℝ)
  let cos_lat1 := Real.cos lat1
  selectFirstMin (test_rad.map (fun c => (c.2.2, spatialDist lat1 lon1 cos_lat1 c.1 c.2.1)))

/-- `match_by_spatial`: for every baseline point, scan all test points
(whose radians are precomputed once) and keep the first one attaining the
minimum inlined haversine distance. -/
noncomputable def match_by_spatial (base test : List TrackPoint) :
    List (TrackPoint × TrackPoint × ℝ) :=
  if base.isEmpty || test.isEmpty then []
  else
    let test_rad := test.map (fun p => (radians (p.lat : ℝ), radians (p.lon : ℝ), p))
    base.filterMap (fun b => (spatialBest b test_rad).map (fun td => (b, td.1, td.2)))

/-- The naive variant of `match_by_spatial` that calls `haversine_m` for
every (baseline, test) pair instead of the inlined precomputed-radians
formula; stated from the claim for the refinement comparison. -/
noncomputable def match_by_spatial_naive (base test : List TrackPoint) :
    List (TrackPoint × TrackPoint × ℝ) :=
  if base.isEmpty || test.isEmpty then []
  else
    base.filterMap (fun b =>
      (selectFirstMin (test.map (fun t =>
        (t, haversine_m (b.lat : ℝ) (b.lon : ℝ) (t.lat : ℝ) (t.lon : ℝ))))).map
        (fun td => (b, td.1, td.2)))

/-! ### Summarizer (`percentile`, `summarize`) -/

/-- `percentile(sorted_vals, pct)`: `nan` (here `none`) on an empty list,
the first element when `pct ≤ 0`, the last when `pct ≥ 100`, otherwise the
element at rank `ceil(pct/100 * n) - 1` clamped into `[0, n-1]`. -/
def percentile (sorted_vals : List ℚ) (pct : ℚ) : Option ℚ :=
  if sorted_vals.isEmpty then none
  else if pct ≤ 0 then some (sorted_vals.getD 0 0)
  else if 100 ≤ pct then some (sorted_vals.getD (sorted_vals.length - 1) 0)
  else
    let rank : ℤ := ⌈pct / 100 * sorted_vals.length⌉ - 1
    some (sorted_vals.getD (min (max rank 0) ((sorted_vals.length : ℤ) - 1)).toNat 0)

/-- Python's `sorted` on the distance list. -/
def sortRat (l : List ℚ) : List ℚ :=
  l.mergeSort (fun a b => a ≤ b)

/-- `summarize(distances)`: `(count, median, p90, max, mean)`, with all four
statistics `nan` (here `none`) when the list is empty; `mean` is
`statistics.mean`, i.e. the exact arithmetic average. -/
def summarize (distances : List ℚ) : ℕ × Option ℚ × Option ℚ × Option ℚ × Option ℚ :=
  let n := distances.length
  if n = 0 then (0, none, none, none, none)
  else
    let vals := sortRat distances
    let mid := n / 2
    let median :=
      if n % 2 = 1 then vals.getD mid 0
      else (1 / 2 : ℚ) * (vals.getD (mid - 1) 0 + vals.getD mid 0)
    (n, some median, percentile vals 90, some (vals.getD (n - 1) 0), some (vals.sum / n))

/-! ### Helper lemmas -/

/-- Squared sine is insensitive to the sign of the halved difference. -/
theorem sin_sq_half_sub_comm (x y : ℝ) :
    Real.sin ((x - y) / 2) ^ 2 = Real.sin ((y - x) / 2) ^ 2 := by
  rw [show (x - y) / 2 = -((y - x) / 2) by ring, Real.sin_neg, neg_sq]

/-- The haversine intermediate is symmetric in its two points. -/
theorem haversine_a_symm (lat1 lon1 lat2 lon2 : ℝ) :
    haversine_a lat1 lon1 lat2 lon2 = haversine_a lat2 lon2 lat1 lon1 := by
  simp only [haversine_a]
  rw [sin_sq_half_sub_comm (radians lat2) (radians lat1),
    sin_sq_half_sub_comm (radians lon2) (radians lon1)]
  ring

/-- Valid latitudes land in `[-π/2, π/2]` after conversion to radians. -/
theorem radians_lat_mem (lat : ℝ) (h₁ : -90 ≤ lat) (h₂ : lat ≤ 90) :
    -(Real.pi / 2) ≤ radians lat ∧ radians lat ≤ Real.pi / 2 := by
  have hpi := Real.pi_pos
  constructor
  · simp only [radians]
    nlinarith
  · simp only [radians]
    nlinarith

/-! ### Claim theorems -/

/-- C4: on an empty distance sequence `summarize` does not fail: it returns
count `0` and the not-a-number sentinel (modelled `none`) for median, p90,
max and mean. -/
theorem summarize_empty :
    summarize [] = (0, none, none, none, none) := rfl

/-- C2 counterexample: a readable file whose single `trkpt` record has a
non-numeric latitude — hence zero well-formed point records — makes
`parse_gpx` return an empty track silently (`Except.ok []`), not a failure,
contradicting the claim that it fails in the no-well-formed-records case. -/
theorem parse_gpx_returns_empty_track_silently :
    parse_gpx (Except.ok [⟨Attr.nonNumeric, Attr.numeric 1, none⟩]) =
      Except.ok ([] : List TrackPoint) := rfl

/-- C2 (amended): `parse_gpx` fails exactly when reading the file fails
(the reader's error propagates); on a readable file it always returns a
point list — possibly empty — whose every point comes from a well-formed
record of the file. -/
theorem parse_gpx_total_behavior (e : String) (recs : List RawTrkpt) :
    parse_gpx (Except.error e) = Except.error e ∧
    (∃ pts : List TrackPoint, parse_gpx (Except.ok recs) = Except.ok pts ∧
      ∀ p ∈ pts, ∃ r ∈ recs, trkptPoint r = some p) := by
  refine ⟨rfl, recs.filterMap trkptPoint, rfl, ?_⟩
  intro p hp
  rcases List.mem_filterMap.mp hp with ⟨r, hr, hf⟩
  exact ⟨r, hr, hf⟩

/-- C5: for valid coordinates the clamp `min 1 (sqrt a)` keeps the argument
handed to the inverse sine inside `[-1, 1]` (and the square root's argument
is itself nonnegative), so `haversine_m`, which applies `arcsin` to exactly
that clamped term, meets no domain error. -/
theorem asin_argument_in_domain (lat1 lon1 lat2 lon2 : ℝ)
    (h₁ : -90 ≤ lat1) (h₂ : lat1 ≤ 90) (h₃ : -90 ≤ lat2) (h₄ : lat2 ≤ 90)
    (h₅ : -180 ≤ lon1) (h₆ : lon1 ≤ 180) (h₇ : -180 ≤ lon2) (h₈ : lon2 ≤ 180) :
    0 ≤ haversine_a lat1 lon1 lat2 lon2 ∧
    -1 ≤ asinArg lat1 lon1 lat2 lon2 ∧
    asinArg lat1 lon1 lat2 lon2 ≤ 1 ∧
    haversine_m lat1 lon1 lat2 lon2 =
      R_EARTH_M * 2 * Real.arcsin (asinArg lat1 lon1 lat2 lon2) := by
  have hc1 : 0 ≤ Real.cos (radians lat1) := by
    have h := radians_lat_mem lat1 h₁ h₂
    exact Real.cos_nonneg_of_mem_Icc ⟨h.1, h.2⟩
  have hc2 : 0 ≤ Real.cos (radians lat2) := by
    have h := radians_lat_mem lat2 h₃ h₄
    exact Real.cos_nonneg_of_mem_Icc ⟨h.1, h.2⟩
  have ha : 0 ≤ haversine_a lat1 lon1 lat2 lon2 := by
    simp only [haversine_a]
    have hs1 := sq_nonneg (Real.sin ((radians lat2 - radians lat1) / 2))
    have hs2 := sq_nonneg (Real.sin ((radians lon2 - radians lon1) / 2))
    have hm := mul_nonneg (mul_nonneg hc1 hc2) hs2
    linarith
  refine ⟨ha, ?_, ?_, rfl⟩
  · have h0 : (0 : ℝ) ≤ min 1 (Real.sqrt (haversine_a lat1 lon1 lat2 lon2)) :=
      le_min zero_le_one (Real.sqrt_nonneg _)
    have : (-1 : ℝ) ≤ 0 := by norm_num
    exact this.trans h0
  · exact min_le_left _ _

/-- C5 witness: the claim's boundary input, two points separated by exactly
180 degrees of longitude on the equator. -/
theorem asin_argument_in_domain_witness :
    ((-90 : ℝ) ≤ 0 ∧ (0 : ℝ) ≤ 90 ∧ (-180 : ℝ) ≤ 0 ∧ (0 : ℝ) ≤ 180 ∧
      (-180 : ℝ) ≤ 180 ∧ (180 : ℝ) ≤ 180) ∧
    (0 ≤ haversine_a 0 0 0 180 ∧
      -1 ≤ asinArg 0 0 0 180 ∧
      asinArg 0 0 0 180 ≤ 1 ∧
      haversine_m 0 0 0 180 = R_EARTH_M * 2 * Real.arcsin (asinArg 0 0 0 180)) :=
  ⟨by norm_num,
    asin_argument_in_domain 0 0 0 180 (by norm_num) (by norm_num) (by norm_num)
      (by norm_num) (by norm_num) (by norm_num) (by norm_num) (by norm_num)⟩

/-- C6: for valid coordinates the distance is symmetric, and the distance
from a point to itself is zero (both exactly, in the exact-real model of
the floating-point computation). -/
theorem haversine_symm_and_self (lat1 lon1 lat2 lon2 : ℝ)
    (h₁ : -90 ≤ lat1) (h₂ : lat1 ≤ 90) (h₃ : -90 ≤ lat2) (h₄ : lat2 ≤ 90)
    (h₅ : -180 ≤ lon1) (h₆ : lon1 ≤ 180) (h₇ : -180 ≤ lon2) (h₈ : lon2 ≤ 180) :
    haversine_m lat1 lon1 lat2 lon2 = haversine_m lat2 lon2 lat1 lon1 ∧
    haversine_m lat1 lon1 lat1 lon1 = 0 := by
  constructor
  · simp only [haversine_m, asinArg, haversine_a_symm lat1 lon1 lat2 lon2]
  · simp only [haversine_m, asinArg, haversine_a, sub_self, zero_div,
      Real.sin_zero, mul_zero, add_zero, zero_pow, Real.sqrt_zero]
    norm_num

/-- C6 witness: symmetry and self-distance applied at a concrete valid
coordinate pair. -/
theorem haversine_symm_and_self_witness :
    ((-90 : ℝ) ≤ 10 ∧ (10 : ℝ) ≤ 90 ∧ (-90 : ℝ) ≤ -30 ∧ (-30 : ℝ) ≤ 90 ∧
      (-180 : ℝ) ≤ 20 ∧ (20 : ℝ) ≤ 180 ∧ (-180 : ℝ) ≤ 40 ∧ (40 : ℝ) ≤ 180) ∧
    (haversine_m 10 20 (-30) 40 = haversine_m (-30) 40 10 20 ∧
      haversine_m 10 20 10 20 = 0) :=
  ⟨by norm_num,
    haversine_symm_and_self 10 20 (-30) 40 (by norm_num) (by norm_num) (by norm_num)
      (by norm_num) (by norm_num) (by norm_num) (by norm_num) (by norm_num)⟩

/-- C10: the distance computed inline in `match_by_spatial` (with the
baseline point's radians and cosine precomputed) coincides with
`haversine_m` on every pair of points, and consequently `match_by_spatial`
equals the naive matcher that calls `haversine_m` for each pair. -/
theorem spatial_inline_refines_haversine :
    (∀ b t : TrackPoint,
      spatialDist (radians (b.lat : ℝ)) (radians (b.lon : ℝ))
          (Real.cos (radians (b.lat : ℝ))) (radians (t.lat : ℝ)) (radians (t.lon : ℝ)) =
        haversine_m (b.lat : ℝ) (b.lon : ℝ) (t.lat : ℝ) (t.lon : ℝ)) ∧
    (∀ base test : List TrackPoint,
      match_by_spatial base test = match_by_spatial_naive base test) := by
  constructor
  · intro b t
    rfl
  · intro base test
    simp only [match_by_spatial, match_by_spatial_naive, spatialBest, List.map_map]
    rfl

/-- C9: both matchers return an empty pair list — without failing — when a
track is empty, and the time-windowed matcher also does so whenever either
track's filtered set of time-usable points is empty. -/
theorem empty_tracks_empty_result (base test : List TrackPoint) (epsilon : ℚ) :
    ((base = [] ∨ test = [] ∨ timedPoints base = [] ∨ timedPoints test = []) →
      match_by_time base test epsilon = []) ∧
    ((base = [] ∨ test = []) → match_by_spatial base test = []) := by
  constructor
  · intro h
    have hb : timedPoints base = [] ∨ timedPoints test = [] := by
      rcases h with h | h | h | h
      · exact Or.inl (by simp [timedPoints, h])
      · exact Or.inr (by simp [timedPoints, h])
      · exact Or.inl h
      · exact Or.inr h
    rcases hb with h | h <;> simp [match_by_time, sortByTime, h]
  · intro h
    rcases h with h | h <;> simp [match_by_spatial, h]

/-- The winner of a two-element candidate list under Python's `min`:
the second element only on a strictly smaller key. -/
theorem minByAbs_pair (sec : ℚ) (c1 c0 : ℚ × TrackPoint) :
    minByAbs sec [c1, c0] = some (if |c0.1 - sec| < |c1.1 - sec| then c0 else c1) := rfl

/-- C7: when both time candidates exist — the test point at the binary-search
insertion position of the baseline time and the test point immediately before
it — the insertion-position candidate wins an exact tie of absolute time
deltas, and otherwise the candidate with the strictly smaller delta wins. -/
theorem time_tie_break (test_t : List (ℚ × TrackPoint)) (sec : ℚ)
    (c1 c0 : ℚ × TrackPoint)
    (h1 : test_t.get? (bisect_left (test_t.map Prod.fst) sec) = some c1)
    (h0 : 0 < bisect_left (test_t.map Prod.fst) sec)
    (h0' : test_t.get? (bisect_left (test_t.map Prod.fst) sec - 1) = some c0) :
    timeCandidates test_t sec = [c1, c0] ∧
    (|c1.1 - sec| = |c0.1 - sec| → minByAbs sec (timeCandidates test_t sec) = some c1) ∧
    (|c1.1 - sec| < |c0.1 - sec| → minByAbs sec (timeCandidates test_t sec) = some c1) ∧
    (|c0.1 - sec| < |c1.1 - sec| → minByAbs sec (timeCandidates test_t sec) = some c0) := by
  have hc : timeCandidates test_t sec = [c1, c0] := by
    have h1' := h1
    have h0'' := h0'
    rw [List.get?_eq_getElem?] at h1' h0''
    simp [timeCandidates, h0, h1', h0'']
  refine ⟨hc, ?_, ?_, ?_⟩ <;> intro h <;> rw [hc, minByAbs_pair]
  · rw [if_neg (by rw [h]; exact lt_irrefl _)]
  · rw [if_neg (not_lt.mpr h.le)]
  · rw [if_pos h]

/-- Concrete two-point list for the tie-break witness. -/
def tieA : TrackPoint := ⟨some 0, 0, 0⟩

/-- Concrete two-point list for the tie-break witness. -/
def tieB : TrackPoint := ⟨some 2, 0, 0⟩

/-- Concrete two-point list for the tie-break witness. -/
def tieList : List (ℚ × TrackPoint) := [(0, tieA), (2, tieB)]

/-- C7 witness: with test times `0` and `2` and baseline time `1`, the
insertion position is `1`, both candidates are exactly one second away, and
the insertion-position candidate (time `2`) is chosen. -/
theorem time_tie_break_witness :
    (tieList.get? (bisect_left (tieList.map Prod.fst) 1) = some (2, tieB) ∧
      0 < bisect_left (tieList.map Prod.fst) 1 ∧
      tieList.get? (bisect_left (tieList.map Prod.fst) 1 - 1) = some (0, tieA) ∧
      |(2 : ℚ) - 1| = |(0 : ℚ) - 1|) ∧
    minByAbs 1 (timeCandidates tieList 1) = some (2, tieB) := by
  have hb : bisect_left (tieList.map Prod.fst) 1 = 1 := by
    simp [tieList, bisect_left, List.findIdx?]
    norm_num
  have h1 : tieList.get? (bisect_left (tieList.map Prod.fst) 1) = some (2, tieB) := by
    rw [hb]; rfl
  have h0 : 0 < bisect_left (tieList.map Prod.fst) 1 := by rw [hb]; norm_num
  have h0' : tieList.get? (bisect_left (tieList.map Prod.fst) 1 - 1) = some (0, tieA) := by
    rw [hb]; rfl
  have habs : |(2 : ℚ) - 1| = |(0 : ℚ) - 1| := by norm_num
  exact ⟨⟨h1, h0, h0', habs⟩,
    (time_tie_break tieList 1 (2, tieB) (0, tieA) h1 h0 h0').2.1 habs⟩

/-- The running best of Python's `min` fold is always drawn from the
initial element or the scanned list. -/
theorem foldl_minByAbs_mem (sec : ℚ) :
    ∀ (xs : List (ℚ × TrackPoint)) (x : ℚ × TrackPoint),
      xs.foldl (fun b y => if |y.1 - sec| < |b.1 - sec| then y else b) x ∈ x :: xs := by
  intro xs
  induction xs with
  | nil => intro x; simp
  | cons y ys ih =>
    intro x
    simp only [List.foldl_cons]
    rcases List.mem_cons.mp (ih (if |y.1 - sec| < |x.1 - sec| then y else x)) with h' | h'
    · rw [h']
      by_cases hy : |y.1 - sec| < |x.1 - sec|
      · simp [hy]
      · simp [hy]
    · exact List.mem_cons_of_mem _ (List.mem_cons_of_mem _ h')

/-- `minByAbs` returns an element of its input list. -/
theorem minByAbs_mem (sec : ℚ) (l : List (ℚ × TrackPoint)) (w : ℚ × TrackPoint)
    (h : minByAbs sec l = some w) : w ∈ l := by
  cases l with
  | nil => simp [minByAbs] at h
  | cons x xs =>
    simp only [minByAbs, Option.some_inj] at h
    rw [← h]
    exact foldl_minByAbs_mem sec xs x

/-- Every candidate of the time matcher is drawn from the test list. -/
theorem timeCandidates_subset (test_t : List (ℚ × TrackPoint)) (sec : ℚ)
    (c : ℚ × TrackPoint) (h : c ∈ timeCandidates test_t sec) : c ∈ test_t := by
  simp only [timeCandidates, List.mem_append] at h
  rcases h with h | h
  · exact List.get?_mem (by simpa using Option.mem_toList.mp h)
  · by_cases hpos : 0 < bisect_left (test_t.map Prod.fst) sec
    · rw [if_pos hpos] at h
      exact List.get?_mem (by simpa using Option.mem_toList.mp h)
    · rw [if_neg hpos] at h
      simp at h

/-- Every pair produced by the time filter carries its own epoch-seconds. -/
theorem timedPoints_seconds (l : List TrackPoint) (b : ℚ × TrackPoint)
    (h : b ∈ timedPoints l) : b.2.seconds = some b.1 := by
  simp only [timedPoints, List.mem_filterMap] at h
  rcases h with ⟨p, _, hp⟩
  rcases Option.map_eq_some'.mp hp with ⟨s, hs, rfl⟩
  exact hs

/-- C1: every pair returned by the time-windowed matcher joins points whose
epoch-seconds differ by at most ε in absolute value; and a baseline point
all of whose candidates are further than ε away in time contributes no
pair (its per-point step yields `none`). -/
theorem match_by_time_within_epsilon (base test : List TrackPoint) (epsilon : ℚ) :
    (∀ p ∈ match_by_time base test epsilon,
      ∃ sb st : ℚ, p.1.seconds = some sb ∧ p.2.1.seconds = some st ∧
        |st - sb| ≤ epsilon) ∧
    (∀ (test_t : List (ℚ × TrackPoint)) (b : ℚ × TrackPoint),
      (∀ c ∈ timeCandidates test_t b.1, epsilon < |c.1 - b.1|) →
      timeMatchOne test_t epsilon b = none) := by
  constructor
  · intro p hp
    simp only [match_by_time] at hp
    by_cases hguard :
        (sortByTime (timedPoints base)).isEmpty || (sortByTime (timedPoints test)).isEmpty
    · rw [if_pos hguard] at hp
      simp at hp
    · rw [if_neg hguard] at hp
      rcases List.mem_filterMap.mp hp with ⟨b, hb, hone⟩
      have hbsec : b.2.seconds = some b.1 :=
        timedPoints_seconds base b ((List.mergeSort_perm _ _).mem_iff.mp hb)
      unfold timeMatchOne at hone
      split at hone
      · exact absurd hone (by simp)
      · rename_i w hw
        split at hone
        · rename_i hle
          have hwt : w ∈ sortByTime (timedPoints test) :=
            timeCandidates_subset _ _ _ (minByAbs_mem _ _ _ hw)
          have hwsec : w.2.seconds = some w.1 :=
            timedPoints_seconds test w ((List.mergeSort_perm _ _).mem_iff.mp hwt)
          obtain rfl := Option.some_inj.mp hone
          exact ⟨b.1, w.1, hbsec, hwsec, hle⟩
        · exact absurd hone (by simp)
  · intro test_t b hall
    unfold timeMatchOne
    cases hw : minByAbs b.1 (timeCandidates test_t b.1) with
    | none => rfl
    | some w =>
      have hgt := hall w (minByAbs_mem _ _ _ hw)
      simp only [hw]
      rw [if_neg (not_le.mpr hgt)]

/-- Characterisation of the spatial scan's fold from a concrete running
best: the result is either the running best (no strictly smaller distance
follows) or the first later element that beats everything strictly. -/
theorem foldl_selectStep_spec :
    ∀ (xs : List (TrackPoint × ℝ)) (acc : TrackPoint × ℝ),
      ∃ y, xs.foldl selectStep (some acc) = some y ∧
        ((y = acc ∧ ∀ z ∈ xs, acc.2 ≤ z.2) ∨
         (∃ l₁ l₂, xs = l₁ ++ y :: l₂ ∧ y.2 < acc.2 ∧
           (∀ z ∈ l₁, y.2 < z.2) ∧ (∀ z ∈ l₂, y.2 ≤ z.2))) := by
  intro xs
  induction xs with
  | nil =>
    intro acc
    exact ⟨acc, rfl, Or.inl ⟨rfl, by simp⟩⟩
  | cons x xs ih =>
    intro acc
    by_cases hx : x.2 < acc.2
    · have hstep : selectStep (some acc) x = some x := by
        simp [selectStep, hx]
      obtain ⟨y, hy, hcase⟩ := ih x
      refine ⟨y, by rw [List.foldl_cons, hstep]; exact hy, Or.inr ?_⟩
      rcases hcase with ⟨rfl, hall⟩ | ⟨l₁, l₂, rfl, hlt, hbefore, hafter⟩
      · exact ⟨[], xs, rfl, hx, by simp, hall⟩
      · refine ⟨x :: l₁, l₂, rfl, hlt.trans hx, ?_, hafter⟩
        intro z hz
        rcases List.mem_cons.mp hz with rfl | hz
        · exact hlt
        · exact hbefore z hz
    · have hstep : selectStep (some acc) x = some acc := by
        simp [selectStep, hx]
      obtain ⟨y, hy, hcase⟩ := ih acc
      refine ⟨y, by rw [List.foldl_cons, hstep]; exact hy, ?_⟩
      rcases hcase with ⟨rfl, hall⟩ | ⟨l₁, l₂, rfl, hlt, hbefore, hafter⟩
      · refine Or.inl ⟨rfl, ?_⟩
        intro z hz
        rcases List.mem_cons.mp hz with rfl | hz
        · exact not_lt.mp hx
        · exact hall z hz
      · refine Or.inr ⟨x :: l₁, l₂, rfl, hlt, ?_, hafter⟩
        intro z hz
        rcases List.mem_cons.mp hz with rfl | hz
        · exact hlt.trans_le (not_lt.mp hx)
        · exact hbefore z hz

/-- The spatial scan selects the first element attaining the minimum
distance: strictly greater distances before it, no smaller one after. -/
theorem selectFirstMin_spec (l : List (TrackPoint × ℝ)) (y : TrackPoint × ℝ)
    (h : selectFirstMin l = some y) :
    ∃ l₁ l₂, l = l₁ ++ y :: l₂ ∧ (∀ z ∈ l₁, y.2 < z.2) ∧ (∀ z ∈ l₂, y.2 ≤ z.2) := by
  cases l with
  | nil => simp [selectFirstMin] at h
  | cons x xs =>
    have hfold : selectFirstMin (x :: xs) = xs.foldl selectStep (some x) := rfl
    rw [hfold] at h
    obtain ⟨y', hy', hcase⟩ := foldl_selectStep_spec xs x
    rw [hy'] at h
    obtain rfl : y' = y := Option.some_inj.mp h
    rcases hcase with ⟨rfl, hall⟩ | ⟨l₁, l₂, rfl, _, hbefore, hafter⟩
    · exact ⟨[], xs, rfl, by simp, hall⟩
    · refine ⟨x :: l₁, l₂, rfl, ?_, hafter⟩
      intro z hz
      rcases List.mem_cons.mp hz with rfl | hz
      · assumption
      · exact hbefore z hz

/-- The per-baseline-point scan of `match_by_spatial`, rewritten over the
plain test list with `haversine_m` distances (the inlined precomputed
radians cancel definitionally). -/
theorem spatialBest_eq_naive (b : TrackPoint) (test : List TrackPoint) :
    spatialBest b (test.map (fun p => (radians (p.lat : ℝ), radians (p.lon : ℝ), p))) =
      selectFirstMin (test.map (fun t =>
        (t, haversine_m (b.lat : ℝ) (b.lon : ℝ) (t.lat : ℝ) (t.lon : ℝ)))) := by
  simp only [spatialBest, List.map_map]
  rfl

/-- C8: every pair produced by the nearest-spatial matcher selects the first
test point in scan order attaining the minimum great-circle distance: all
earlier test points are at strictly greater distance (so a later equal
distance never displaces the selection), all later ones at ≥ distance. -/
theorem spatial_first_encountered_min (base test : List TrackPoint) :
    ∀ p ∈ match_by_spatial base test,
      ∃ t₁ t₂ : List TrackPoint, test = t₁ ++ p.2.1 :: t₂ ∧
        p.2.2 = haversine_m (p.1.lat : ℝ) (p.1.lon : ℝ) (p.2.1.lat : ℝ) (p.2.1.lon : ℝ) ∧
        (∀ z ∈ t₁, p.2.2 < haversine_m (p.1.lat : ℝ) (p.1.lon : ℝ) (z.lat : ℝ) (z.lon : ℝ)) ∧
        (∀ z ∈ t₂, p.2.2 ≤ haversine_m (p.1.lat : ℝ) (p.1.lon : ℝ) (z.lat : ℝ) (z.lon : ℝ)) := by
  intro p hp
  simp only [match_by_spatial] at hp
  by_cases hguard : base.isEmpty || test.isEmpty
  · rw [if_pos hguard] at hp
    simp at hp
  · rw [if_neg hguard] at hp
    rcases List.mem_filterMap.mp hp with ⟨b, _, hone⟩
    rcases Option.map_eq_some'.mp hone with ⟨⟨t, d⟩, hbest, rfl⟩
    rw [spatialBest_eq_naive] at hbest
    obtain ⟨l₁, l₂, hsplit, hbefore, hafter⟩ := selectFirstMin_spec _ _ hbest
    obtain ⟨t₁, rest, rfl, hmap₁, hrest⟩ := List.map_eq_append_iff.mp hsplit
    obtain ⟨t₀, t₂, rfl, hft₀, hmap₂⟩ := List.map_eq_cons_iff.mp hrest
    obtain ⟨rfl, rfl⟩ : t₀ = t ∧
        haversine_m (b.lat : ℝ) (b.lon : ℝ) (t₀.lat : ℝ) (t₀.lon : ℝ) = d := by
      have h1 := congrArg Prod.fst hft₀
      have h2 := congrArg Prod.snd hft₀
      exact ⟨h1, h2⟩
    refine ⟨t₁, t₂, rfl, rfl, ?_, ?_⟩
    · intro z hz
      have := hbefore (z, haversine_m (b.lat : ℝ) (b.lon : ℝ) (z.lat : ℝ) (z.lon : ℝ))
        (by rw [← hmap₁]; exact List.mem_map_of_mem _ hz)
      exact this
    · intro z hz
      have := hafter (z, haversine_m (b.lat : ℝ) (b.lon : ℝ) (z.lat : ℝ) (z.lon : ℝ))
        (by rw [← hmap₂]; exact List.mem_map_of_mem _ hz)
      exact this

/-- Concrete point for the nearest-spatial witness. -/
def spatialW : TrackPoint := ⟨none, 0, 0⟩

/-- C8 witness: a one-point baseline matched against a one-point test track
produces that test point, and the scan-order characterisation holds for it. -/
theorem spatial_first_encountered_min_witness :
    ((spatialW, spatialW,
        haversine_m (spatialW.lat : ℝ) (spatialW.lon : ℝ)
          (spatialW.lat : ℝ) (spatialW.lon : ℝ)) ∈
      match_by_spatial [spatialW] [spatialW]) ∧
    (∃ t₁ t₂ : List TrackPoint, [spatialW] = t₁ ++ spatialW :: t₂ ∧
      haversine_m (spatialW.lat : ℝ) (spatialW.lon : ℝ) (spatialW.lat : ℝ) (spatialW.lon : ℝ) =
        haversine_m (spatialW.lat : ℝ) (spatialW.lon : ℝ) (spatialW.lat : ℝ) (spatialW.lon : ℝ) ∧
      (∀ z ∈ t₁,
        haversine_m (spatialW.lat : ℝ) (spatialW.lon : ℝ) (spatialW.lat : ℝ) (spatialW.lon : ℝ) <
          haversine_m (spatialW.lat : ℝ) (spatialW.lon : ℝ) (z.lat : ℝ) (z.lon : ℝ)) ∧
      (∀ z ∈ t₂,
        haversine_m (spatialW.lat : ℝ) (spatialW.lon : ℝ) (spatialW.lat : ℝ) (spatialW.lon : ℝ) ≤
          haversine_m (spatialW.lat : ℝ) (spatialW.lon : ℝ) (z.lat : ℝ) (z.lon : ℝ))) := by
  have heq : match_by_spatial [spatialW] [spatialW] =
      [(spatialW, spatialW,
        haversine_m (spatialW.lat : ℝ) (spatialW.lon : ℝ)
          (spatialW.lat : ℝ) (spatialW.lon : ℝ))] := rfl
  have hmem : (spatialW, spatialW,
      haversine_m (spatialW.lat : ℝ) (spatialW.lon : ℝ)
        (spatialW.lat : ℝ) (spatialW.lon : ℝ)) ∈
      match_by_spatial [spatialW] [spatialW] := by
    rw [heq]
    exact List.mem_singleton.mpr rfl
  exact ⟨hmem, spatial_first_encountered_min [spatialW] [spatialW] _ hmem⟩

/-- The last element of a nonempty list is its entry at index `length - 1`. -/
theorem getLast?_eq_some_getD (s : List ℚ) (h : s ≠ []) :
    s.getLast? = some (s.getD (s.length - 1) 0) := by
  induction s with
  | nil => exact absurd rfl h
  | cons a t ih =>
    cases t with
    | nil => rfl
    | cons b t' =>
      rw [List.getLast?_cons_cons, ih (List.cons_ne_nil b t')]
      rfl

/-- The head of an ascending-sorted list bounds every element from below. -/
theorem sorted_head_le (a : ℚ) (t : List ℚ) (hs : List.Sorted (· ≤ ·) (a :: t)) :
    ∀ x ∈ a :: t, a ≤ x := by
  intro x hx
  rcases List.mem_cons.mp hx with rfl | hx'
  · exact le_refl x
  · exact (List.sorted_cons.mp hs).1 x hx'

/-- The last element of an ascending-sorted list bounds every element from
above. -/
theorem sorted_le_getLast :
    ∀ (s : List ℚ), List.Sorted (· ≤ ·) s → ∀ M, s.getLast? = some M →
      ∀ x ∈ s, x ≤ M := by
  intro s
  induction s with
  | nil =>
    intro _ M hM
    simp at hM
  | cons a t ih =>
    intro hs M hM x hx
    rcases List.sorted_cons.mp hs with ⟨ha, ht⟩
    cases t with
    | nil =>
      simp at hM hx
      rw [hx, ← hM]
    | cons b t' =>
      rw [List.getLast?_cons_cons] at hM
      rcases List.mem_cons.mp hx with rfl | hx'
      · obtain ⟨hnil, hEq⟩ := List.mem_getLast?_eq_getLast (Option.mem_def.mpr hM)
        exact ha M (hEq ▸ List.getLast_mem hnil)
      · exact ih ht M hM x hx'

/-- C3: on a non-empty distance list, `summarize` reports the length as
count, the standard sorted-middle median, the nearest-rank p90 at rank
`⌈90/100·n⌉ - 1` clamped into `[0, n-1]`, the last sorted element as max,
and the exact arithmetic average as mean; `percentile` returns the minimum
for `p ≤ 0`, the maximum for `p ≥ 100`, and the clamped ceil-rank element
in between; on `[1, 2, 3, 4]` the summary is `(4, 5/2, 4, 4, 5/2)`. -/
theorem summarize_nonempty_spec (vals : List ℚ) (p : ℚ) (h : vals ≠ []) :
    (summarize vals).1 = vals.length ∧
    (summarize vals).2.1 = some (
      if vals.length % 2 = 1 then (sortRat vals).getD (vals.length / 2) 0
      else (1 / 2 : ℚ) * ((sortRat vals).getD (vals.length / 2 - 1) 0 +
        (sortRat vals).getD (vals.length / 2) 0)) ∧
    (summarize vals).2.2.1 = some ((sortRat vals).getD
      (min (max (⌈(90 : ℚ) / 100 * (vals.length : ℚ)⌉ - 1) 0)
        ((vals.length : ℤ) - 1)).toNat 0) ∧
    (summarize vals).2.2.2.1 = (sortRat vals).getLast? ∧
    (summarize vals).2.2.2.2 = some (vals.sum / (vals.length : ℚ)) ∧
    (p ≤ 0 → ∃ m, percentile (sortRat vals) p = some m ∧ m ∈ vals ∧
      ∀ x ∈ vals, m ≤ x) ∧
    (100 ≤ p → ∃ M, percentile (sortRat vals) p = some M ∧ M ∈ vals ∧
      ∀ x ∈ vals, x ≤ M) ∧
    (0 < p → p < 100 → percentile (sortRat vals) p = some ((sortRat vals).getD
      (min (max (⌈p / 100 * (vals.length : ℚ)⌉ - 1) 0)
        ((vals.length : ℤ) - 1)).toNat 0)) ∧
    summarize [1, 2, 3, 4] = (4, some (5 / 2), some 4, some 4, some (5 / 2)) := by
  have hperm : (sortRat vals).Perm vals := List.mergeSort_perm vals (fun a b => a ≤ b)
  have hlen : (sortRat vals).length = vals.length := hperm.length_eq
  have hnz : vals.length ≠ 0 := fun hc => h (List.eq_nil_of_length_eq_zero hc)
  have hne : sortRat vals ≠ [] := by
    intro hc
    exact hnz (by rw [← hlen, hc]; rfl)
  have hie : ¬((sortRat vals).isEmpty = true) := by
    simpa [List.isEmpty_iff] using hne
  have hsorted : List.Sorted (· ≤ ·) (sortRat vals) := List.sorted_mergeSort' vals
  refine ⟨?_, ?_, ?_, ?_, ?_, ?_, ?_, ?_, ?_⟩
  · simp only [summarize]
    rw [if_neg hnz]
  · simp only [summarize]
    rw [if_neg hnz]
  · simp only [summarize]
    rw [if_neg hnz]
    simp only [percentile]
    rw [if_neg hie, if_neg (by norm_num : ¬((90 : ℚ) ≤ 0)),
      if_neg (by norm_num : ¬((100 : ℚ) ≤ 90)), hlen]
  · simp only [summarize]
    rw [if_neg hnz, getLast?_eq_some_getD _ hne, hlen]
  · simp only [summarize]
    rw [if_neg hnz, hperm.sum_eq]
  · intro hp
    simp only [percentile]
    rw [if_neg hie, if_pos hp]
    obtain ⟨a, t, hat⟩ : ∃ a t, sortRat vals = a :: t := by
      cases hsv : sortRat vals with
      | nil => exact absurd hsv hne
      | cons a t => exact ⟨a, t, rfl⟩
    refine ⟨a, ?_, ?_, ?_⟩
    · rw [hat]
      rfl
    · exact hperm.mem_iff.mp (by rw [hat]; exact List.mem_cons_self a t)
    · intro x hx
      exact sorted_head_le a t (hat ▸ hsorted) x (hat ▸ hperm.mem_iff.mpr hx)
  · intro hp
    have hp0 : ¬(p ≤ 0) := by linarith
    simp only [percentile]
    rw [if_neg hie, if_neg hp0, if_pos hp]
    refine ⟨(sortRat vals).getD ((sortRat vals).length - 1) 0, rfl, ?_, ?_⟩
    · have hgl := getLast?_eq_some_getD _ hne
      obtain ⟨hnil, hEq⟩ := List.mem_getLast?_eq_getLast (Option.mem_def.mpr hgl)
      exact hperm.mem_iff.mp (hEq ▸ List.getLast_mem hnil)
    · intro x hx
      exact sorted_le_getLast (sortRat vals) hsorted _
        (getLast?_eq_some_getD _ hne) x (hperm.mem_iff.mpr hx)
  · intro hp0 hp100
    simp only [percentile]
    rw [if_neg hie, if_neg (not_le.mpr hp0), if_neg (not_le.mpr hp100), hlen]
  · have hsort : sortRat [1, 2, 3, 4] = [1, 2, 3, 4] := by
      apply List.mergeSort_eq_self
      norm_num [List.sorted_cons]
    have hceil : (⌈(18 : ℚ) / 5⌉ : ℤ) = 4 := by
      rw [Int.ceil_eq_iff]
      norm_num
    simp only [summarize, percentile, hsort]
    norm_num [hceil, List.getD]
    rfl

/-- C3 witness: the summary specification applied to the concrete distance
list `[2]` with requested percentile `50`. -/
theorem summarize_nonempty_spec_witness :
    (([2] : List ℚ) ≠ []) ∧
    ((summarize [2]).1 = ([2] : List ℚ).length ∧
      (summarize [2]).2.1 = some (
        if ([2] : List ℚ).length % 2 = 1 then
          (sortRat [2]).getD (([2] : List ℚ).length / 2) 0
        else (1 / 2 : ℚ) * ((sortRat [2]).getD (([2] : List ℚ).length / 2 - 1) 0 +
          (sortRat [2]).getD (([2] : List ℚ).length / 2) 0)) ∧
      (summarize [2]).2.2.1 = some ((sortRat [2]).getD
        (min (max (⌈(90 : ℚ) / 100 * ((([2] : List ℚ).length : ℚ))⌉ - 1) 0)
          ((([2] : List ℚ).length : ℤ) - 1)).toNat 0) ∧
      (summarize [2]).2.2.2.1 = (sortRat [2]).getLast? ∧
      (summarize [2]).2.2.2.2 = some (([2] : List ℚ).sum / ((([2] : List ℚ).length : ℚ))) ∧
      ((50 : ℚ) ≤ 0 → ∃ m, percentile (sortRat [2]) 50 = some m ∧ m ∈ ([2] : List ℚ) ∧
        ∀ x ∈ ([2] : List ℚ), m ≤ x) ∧
      ((100 : ℚ) ≤ 50 → ∃ M, percentile (sortRat [2]) 50 = some M ∧ M ∈ ([2] : List ℚ) ∧
        ∀ x ∈ ([2] : List ℚ), x ≤ M) ∧
      ((0 : ℚ) < 50 → (50 : ℚ) < 100 → percentile (sortRat [2]) 50 = some ((sortRat [2]).getD
        (min (max (⌈(50 : ℚ) / 100 * ((([2] : List ℚ).length : ℚ))⌉ - 1) 0)
          ((([2] : List ℚ).length : ℤ) - 1)).toNat 0)) ∧
      summarize [1, 2, 3, 4] = (4, some (5 / 2), some 4, some 4, some (5 / 2))) :=
  ⟨by simp, summarize_nonempty_spec [2] 50 (by simp)⟩

end CompareGpx
